import Mathlib

/-
Verification of the guess-evaluation and game-state core of the
multiplayer-wordle repository.

Strings are modelled as `List Char` (one entry per UTF-16 unit; every
character used by the game lives in the BMP, so JavaScript's `s.length`
and `s[i]` agree with `List.length` and `l[i]?`).  JavaScript's
out-of-range string indexing yields `undefined`; we model a read as
`l[i]?` with `none` playing the role of `undefined`, so the JS strict
comparison `guess[i] === targetWord[i]` becomes decidable equality of
`Option Char` (`undefined === undefined` is `true`).
-/

namespace MultiplayerWordle

/-- The `LetterState` union type from `src/lib/words.ts`. -/
inductive LetterState
  | correct
  | present
  | absent
deriving DecidableEq, Repr, Fintype

/-- The mutable locals of `evaluateGuess` (`src/lib/words.ts`):
`result` (initialised to five `"absent"`) and `targetLetters`
(`targetWord.split("")`, with `""` — the "used" marker — modelled as
`none`).  Writing `""` at an index beyond the array's length (which JS
would do by extending the array with holes) is a no-op here; that write
is never observable because `indexOf` skips holes and a `""`/hole entry
never strictly-equals a one-character string. -/
structure EvalState where
  result : List LetterState
  targetLetters : List (Option Char)
deriving Repr

/-- One iteration of the first pass of `evaluateGuess`:
`if (guess[i] === targetWord[i]) { result[i] = "correct"; targetLetters[i] = "" }`. -/
def pass1Step (guess target : List Char) (s : EvalState) (i : Nat) : EvalState :=
  if guess[i]? = target[i]? then
    { result := s.result.set i .correct, targetLetters := s.targetLetters.set i none }
  else s

/-- One iteration of the second pass of `evaluateGuess`:
`if (result[i] === "absent") { const index = targetLetters.indexOf(guess[i]);
 if (index !== -1) { result[i] = "present"; targetLetters[index] = "" } }`.
`indexOf(undefined)` returns `-1` in JS (strict equality against string
entries), which is the `none` branch of the match on `guess[i]?`. -/
def pass2Step (guess : List Char) (s : EvalState) (i : Nat) : EvalState :=
  if s.result[i]? = some .absent then
    match guess[i]? with
    | none => s
    | some ch =>
      match s.targetLetters.findIdx? (· == some ch) with
      | none => s
      | some j =>
        { result := s.result.set i .present, targetLetters := s.targetLetters.set j none }
  else s

/-- `evaluateGuess` from `src/lib/words.ts`: two passes of five
iterations each over an accumulator of five `"absent"` marks and the
target's letter pool. -/
def evaluateGuess (guess target : List Char) : List LetterState :=
  let s0 : EvalState := ⟨List.replicate 5 .absent, target.map some⟩
  let s1 := (List.range 5).foldl (pass1Step guess target) s0
  let s2 := (List.range 5).foldl (pass2Step guess) s1
  s2.result

/-- The word corpus `WORDS` of `src/lib/words.ts` (the active,
Turkish-language list; the commented-out English list is dead code). -/
def WORDS : List (List Char) :=
  ["AHLAK", "GURUR", "KİBİR", "SİNİR", "MADDE", "ANLAM", "NAMUS", "EFSUN",
   "HİTAP", "KELAM", "KANIT", "DELİL", "BATIL", "YALAN", "DOĞRU", "YÜZEY",
   "ÇIKIŞ", "GİRİŞ", "DEFİN", "KABİR", "GÖMÜT", "MEZAR", "BAHÇE", "HOTEL",
   "ANTRE", "SALON", "KİLER", "BANYO", "BETON", "DORUK", "DAHİL", "DAVUL",
   "KABUL", "DİĞER", "ÖTEKİ", "DAİMA", "ŞİMDİ", "YARIN", "BUGÜN", "EVVEL",
   "SONRA", "KAYIT", "SATIR", "MISRA", "ROMAN", "ÇANTA", "TAHTA", "ÇEKİÇ",
   "RADYO", "KAĞIT", "SEHPA", "DOLAP", "KALEM", "KAŞIK", "BIÇAK", "TABAK",
   "TABLO", "LAMBA", "TEPSİ", "KİLİT", "RENDE", "AYRAÇ", "MAKAS", "KAZAK",
   "HIRKA", "CEKET", "KEMER", "FULAR", "KABAN", "PALTO", "YILAN", "KÖPEK",
   "DOMUZ", "KUMRU", "AKREP", "SERÇE", "TAVUK", "HOROZ", "HİNDİ", "ŞAHİN",
   "KOYUN", "KATIR", "MANDA", "TİLKİ", "GEYİK", "KİRPİ", "SADIK", "ZAYIF",
   "SAKİN", "YALIN", "ALÇAK", "REZİL", "EBEDİ", "EZELİ", "VAZIH", "FAKİR",
   "ASABİ", "FERAH", "GÜZEL", "NADİR", "NAZİK", "KİBAR", "SABİT", "YAKIN",
   "DERİN", "TEMİZ", "GİZLİ", "KUTLU", "KOLAY", "BASİT", "BEŞİR", "GAMLI",
   "LATİF", "İÇSEL", "ZEBUN", "CİMRİ", "BİBER", "HELVA", "GAZOZ", "HURMA",
   "SALÇA", "CEVİZ", "BADEM", "KEKİK", "ARMUT", "MARUL", "SOĞAN", "KİRAZ",
   "ÇİLEK", "VİŞNE", "KAVUN", "BAMYA", "SUSAM", "TAHİN", "REÇEL", "AYRAN"
  ].map String.data

/-- `isValidWord` from `src/lib/words.ts`: `word.length === 5`.  (The
call sites pass a second `language` argument, which a JS function of one
parameter silently ignores; the corpus is not consulted.) -/
def isValidWord (word : List Char) : Bool :=
  word.length == 5

/-- The upgrade test of `updateKeyboardStates` (both in
`src/components/game-board.tsx` and in the solo-game component):
`!currentState || (currentState === "absent" && (newState === "present" ||
newState === "correct")) || (currentState === "present" && newState ===
"correct")`.  An unset key (JS `undefined`) is `none`. -/
def shouldOverride (cur new : Option LetterState) : Bool :=
  cur == none
    || (cur == some .absent && (new == some .present || new == some .correct))
    || (cur == some .present && new == some .correct)

/-- One iteration of the inner loop of `updateKeyboardStates`:
conditionally assign `newKeyboardStates[letter] = newState`.  The
keyboard map is modelled as a function `Char → Option LetterState`
(`none` = key not set / set to `undefined`, which is observationally the
same in this algorithm).  -/
def kbStep (m : Char → Option LetterState) (letter : Char) (new : Option LetterState) :
    Char → Option LetterState :=
  if shouldOverride (m letter) new then Function.update m letter new else m

/-- The per-guess body of `updateKeyboardStates`: evaluate the guess and
walk `for (let i = 0; i < guess.length; i++)` with `letter = guess[i]`,
`newState = evaluation[i]` (JS `undefined`, i.e. `none`, when `i ≥ 5`). -/
def applyGuessKB (word : List Char) (m : Char → Option LetterState) (g : List Char) :
    Char → Option LetterState :=
  let ev := evaluateGuess g word
  g.enum.foldl (fun m p => kbStep m p.2 ev[p.1]?) m

/-- `updateKeyboardStates` recomputes the whole keyboard map from
scratch, folding over the player's guesses in order, starting from the
empty object. -/
def updateKeyboardStates (word : List Char) (guesses : List (List Char)) :
    Char → Option LetterState :=
  guesses.foldl (applyGuessKB word) (fun _ => none)

/-- Numeric strength of a keyboard entry, ordering
`unset < absent < present < correct`. -/
def stateVal : Option LetterState → Nat
  | none => 0
  | some .absent => 1
  | some .present => 2
  | some .correct => 3

/-- Maximum of two keyboard entries under `stateVal`. -/
def maxOpt (a b : Option LetterState) : Option LetterState :=
  if stateVal a < stateVal b then b else a

/-- The evaluation states the letter `c` receives in guess `g` (one per
position of `g` holding `c`, in order). -/
def occStates (word g : List Char) (c : Char) : List (Option LetterState) :=
  g.enum.filterMap fun p => if p.2 = c then some ((evaluateGuess g word)[p.1]?) else none

/-- All evaluation states the letter `c` receives across a guess
sequence, in submission order. -/
def occList (word : List Char) (gs : List (List Char)) (c : Char) :
    List (Option LetterState) :=
  gs.flatMap fun g => occStates word g c

/-- Two guesses share no letters. -/
def lettersDisjoint (g g' : List Char) : Prop :=
  ∀ c, c ∈ g → c ∉ g'

/-- Game status values stored in the `games` table
(`waiting`/`active`/`completed`). -/
inductive GameStatus
  | waiting
  | active
  | completed
deriving DecidableEq, Repr

/-- A guess record as held in `guessesRef` (id, `player_id`, guess text;
timestamps and nicknames are irrelevant to the claims). -/
structure GuessRec where
  id : String
  playerId : String
  guess : List Char
deriving DecidableEq, Repr

/-- Server-directed effects emitted by the multiplayer branch of
`submitGuess`: a `guesses` INSERT, and a `games` UPDATE setting status
and winner. -/
inductive GBEffect
  | insertGuess (playerId : String) (guess : List Char)
  | updateGame (status : GameStatus) (winnerId : String)
deriving DecidableEq, Repr

/-- The mutable session state of the `GameBoard` component: the refs
(`gameStatusRef`, `winnerIdRef`, `guessesRef`, `gamePlayersRef`,
`keyboardStatesRef`, `playerRef`) and the React state cells that the
claims mention (`currentGuess`, `isSubmitting`, `showInvalidWordAlert`),
plus the immutable `game` row fields used by the handlers. -/
structure GBState where
  word : List Char
  maxAttempts : Nat
  isMultiplayer : Bool
  playerId : Option String
  status : GameStatus
  winnerId : Option String
  guesses : List GuessRec
  gamePlayers : List String
  currentGuess : List Char
  isSubmitting : Bool
  showInvalidWordAlert : Bool
  keyboard : Char → Option LetterState

/-- `guessesRef.current.filter((guess) => guess.player_id ===
playerRef.current?.id)` — the local player's own guesses. -/
def ownGuesses (s : GBState) : List GuessRec :=
  s.guesses.filter fun r => some r.playerId == s.playerId

/-- `updateKeyboardStates` of `GameBoard`: early return when
`playerRef.current` is null, otherwise recompute `keyboardStatesRef`
from the player's own guesses. -/
def gbUpdateKB (s : GBState) : GBState :=
  match s.playerId with
  | none => s
  | some _ => { s with keyboard := updateKeyboardStates s.word ((ownGuesses s).map (·.guess)) }

/-- `submitGuess` of `GameBoard` (success path of the persistence calls;
a failed insert only raises a toast and changes no modelled state).
`freshId` stands for the `Date.now()`-generated local guess id.  The
multiplayer branch performs no local mutation beyond clearing
`currentGuess`; its INSERT and conditional UPDATE are returned as
effects. -/
def gbSubmitGuess (s : GBState) (freshId : String) : GBState × List GBEffect :=
  if s.currentGuess.length ≠ 5 ∨ s.isSubmitting ∨ s.playerId = none then (s, [])
  else
    match s.playerId with
    | none => (s, [])
    | some pid =>
      if ¬ isValidWord s.currentGuess then ({ s with showInvalidWordAlert := true }, [])
      else if ¬ s.isMultiplayer then
        let newGuess : GuessRec := ⟨freshId, pid, s.currentGuess⟩
        let s1 := { s with guesses := s.guesses ++ [newGuess] }
        let s2 := if s.currentGuess = s.word then { s1 with status := .completed } else s1
        ({ gbUpdateKB s2 with currentGuess := [] }, [])
      else
        ({ s with currentGuess := [] },
          GBEffect.insertGuess pid s.currentGuess ::
            (if s.currentGuess = s.word then [GBEffect.updateGame .completed pid] else []))

/-- The single-character alphabet test `/^[A-ZÇĞİÖŞÜ]$/`. -/
def inAlphabet (c : Char) : Bool :=
  ('A' ≤ c && c ≤ 'Z') || c == 'Ç' || c == 'Ğ' || c == 'İ' || c == 'Ö' || c == 'Ş' || c == 'Ü'

/-- `/^[A-ZÇĞİÖŞÜ]$/.test(key)`: the key is one character from the
alphabet. -/
def isLetterKey (key : List Char) : Bool :=
  match key with
  | [c] => inAlphabet c
  | _ => false

/-- `handleKeyPress` of `GameBoard`: bail out when there is no player,
when the game is over for this player (`status === "completed"` or own
guess count at `max_attempts`), or while submitting; otherwise ENTER
submits a full 5-letter guess, BACKSPACE drops the last character
(`slice(0, -1)`), and an alphabet key is appended while under 5
characters. -/
def gbHandleKeyPress (s : GBState) (freshId : String) (key : List Char) :
    GBState × List GBEffect :=
  match s.playerId with
  | none => (s, [])
  | some _ =>
    if (s.status == GameStatus.completed || decide ((ownGuesses s).length ≥ s.maxAttempts))
        || s.isSubmitting then (s, [])
    else if key = "ENTER".data then
      if s.currentGuess.length = 5 then gbSubmitGuess s freshId else (s, [])
    else if key = "BACKSPACE".data then
      ({ s with currentGuess := s.currentGuess.dropLast }, [])
    else if s.currentGuess.length < 5 ∧ isLetterKey key then
      ({ s with currentGuess := s.currentGuess ++ key }, [])
    else (s, [])

/-- The `guesses` INSERT channel handler of `setupChannel`: if a guess
with the same id is already present locally the event is discarded,
otherwise the fetched record is appended and the keyboard map is
recomputed. -/
def applyGuessAdded (s : GBState) (g : GuessRec) : GBState :=
  if s.guesses.any (fun r => r.id == g.id) then s
  else gbUpdateKB { s with guesses := s.guesses ++ [g] }

/-- The `games` UPDATE channel handler of `setupChannel`:
`gameStatusRef.current = payload.new.status; winnerIdRef.current =
payload.new.winner_id` — an unconditional overwrite of exactly those two
fields. -/
def applyGameStatusChanged (s : GBState) (newStatus : GameStatus) (newWinner : Option String) :
    GBState :=
  { s with status := newStatus, winnerId := newWinner }

/-- The state of the solo-game component (`SoloGame`): `word`,
`currentGuess`, `guesses`, `keyboardStates`, `showInvalidWordAlert`,
`isGameOver`, `isWinner`. -/
structure SoloState where
  word : List Char
  currentGuess : List Char
  guesses : List (List Char)
  keyboard : Char → Option LetterState
  showInvalidWordAlert : Bool
  isGameOver : Bool
  isWinner : Bool

/-- `submitGuess` of `SoloGame`: guard, validate, append the guess,
clear the input, recompute the keyboard (the `useEffect` keyed on
`guesses` runs `updateKeyboardStates` after the state update), then set
the win/game-over flags — win on exact match, game over after the 6th
guess. -/
def soloSubmitGuess (s : SoloState) : SoloState :=
  if s.currentGuess.length ≠ 5 ∨ s.isGameOver then s
  else if ¬ isValidWord s.currentGuess then { s with showInvalidWordAlert := true }
  else
    let newGuesses := s.guesses ++ [s.currentGuess]
    let s1 := { s with guesses := newGuesses, currentGuess := [],
                       keyboard := updateKeyboardStates s.word newGuesses }
    if s.currentGuess = s.word then { s1 with isWinner := true, isGameOver := true }
    else if newGuesses.length ≥ 6 then { s1 with isGameOver := true }
    else s1

/-- `handleKeyPress` of `SoloGame`. -/
def soloHandleKeyPress (s : SoloState) (key : List Char) : SoloState :=
  if s.isGameOver then s
  else if key = "ENTER".data then
    if s.currentGuess.length = 5 then soloSubmitGuess s else s
  else if key = "BACKSPACE".data then { s with currentGuess := s.currentGuess.dropLast }
  else if s.currentGuess.length < 5 ∧ isLetterKey key then
    { s with currentGuess := s.currentGuess ++ key }
  else s

/-- The invariant C10 tracks for the current-guess buffer. -/
def guessInv (l : List Char) : Prop :=
  l.length ≤ 5 ∧ ∀ c ∈ l, inAlphabet c = true

/-- Count of indices `i < n` satisfying `f`. -/
def idxCountP (f : Nat → Bool) (n : Nat) : Nat :=
  (List.range n).countP f

/-- Number of board positions (out of the five) whose mark is `st` and
whose guess letter is `c`. -/
def markedCount (res : List LetterState) (g : List Char) (st : LetterState) (c : Char) : Nat :=
  idxCountP (fun i => decide (res[i]? = some st) && decide (g[i]? = some c)) 5

/-- Number of not-yet-consumed copies of `c` in the target letter
pool. -/
def availCount (tl : List (Option Char)) (c : Char) : Nat :=
  tl.countP (· == some c)

/-- Conserved quantity of the second pass: `present` marks carrying `c`
plus the remaining pool copies of `c`. -/
def evalMeasure (g : List Char) (c : Char) (s : EvalState) : Nat :=
  markedCount s.result g .present c + availCount s.targetLetters c

/-- The state of `evaluateGuess` before the first pass. -/
def initState (target : List Char) : EvalState :=
  ⟨List.replicate 5 .absent, target.map some⟩

/-- The state of `evaluateGuess` after the first pass. -/
def pass1State (guess target : List Char) : EvalState :=
  (List.range 5).foldl (pass1Step guess target) (initState target)

/-- The state of `evaluateGuess` after the second pass. -/
def pass2State (guess target : List Char) : EvalState :=
  (List.range 5).foldl (pass2Step guess) (pass1State guess target)

/-- A keyboard map with no recorded keys, for concrete instantiations. -/
def emptyKB : Char → Option LetterState :=
  fun _ => none

/-- A concrete completed multiplayer session, used to instantiate the
game-over theorems. -/
def exampleCompleted : GBState where
  word := ['W', 'A', 'T', 'E', 'R']
  maxAttempts := 6
  isMultiplayer := true
  playerId := some "p1"
  status := .completed
  winnerId := some "p1"
  guesses := [⟨"g1", "p1", ['W', 'A', 'T', 'E', 'R']⟩]
  gamePlayers := ["p1", "p2"]
  currentGuess := []
  isSubmitting := false
  showInvalidWordAlert := false
  keyboard := emptyKB

/-- A concrete active session whose buffer `ABCD` fails validation. -/
def exampleShortGuess : GBState :=
  { exampleCompleted with
      status := .active, winnerId := none, currentGuess := ['A', 'B', 'C', 'D'] }

/-- A concrete active session about to submit the winning word. -/
def exampleActive : GBState :=
  { exampleCompleted with
      status := .active, winnerId := none, guesses := [],
      currentGuess := ['W', 'A', 'T', 'E', 'R'] }

/-- A concrete active solo-component session about to submit the winning
word. -/
def exampleSoloActive : SoloState where
  word := ['W', 'A', 'T', 'E', 'R']
  currentGuess := ['W', 'A', 'T', 'E', 'R']
  guesses := []
  keyboard := emptyKB
  showInvalidWordAlert := false
  isGameOver := false
  isWinner := false

/-! Generic counting helpers. -/

theorem idxCountP_succ (f : Nat → Bool) (n : Nat) :
    idxCountP f (n + 1) = idxCountP f n + if f n then 1 else 0 := by
  unfold idxCountP
  rw [List.range_succ, List.countP_append]
  simp [List.countP_cons]

theorem idxCountP_congr {f g : Nat → Bool} {n : Nat} (h : ∀ i, i < n → f i = g i) :
    idxCountP f n = idxCountP g n := by
  unfold idxCountP
  refine List.countP_congr fun i hi => ?_
  rw [h i (List.mem_range.mp hi)]

theorem idxCountP_update (f f' : Nat → Bool) {n i : Nat} (hi : i < n)
    (hoff : ∀ j, j ≠ i → f j = f' j) :
    idxCountP f' n + (if f i then 1 else 0) = idxCountP f n + (if f' i then 1 else 0) := by
  induction n with
  | zero => omega
  | succ n ih =>
    rw [idxCountP_succ, idxCountP_succ]
    by_cases h : i = n
    · subst h
      have he : idxCountP f i = idxCountP f' i :=
        idxCountP_congr fun j hj => hoff j (by omega)
      omega
    · have hfn : f n = f' n := hoff n (by omega)
      have := ih (by omega)
      rw [hfn]
      omega

theorem countP_set {α : Type} (p : α → Bool) (l : List α) (i : Nat) (a b : α)
    (h : l[i]? = some b) :
    (l.set i a).countP p + (if p b then 1 else 0) = l.countP p + (if p a then 1 else 0) := by
  induction l generalizing i with
  | nil => simp at h
  | cons x xs ih =>
    cases i with
    | zero =>
      simp only [List.getElem?_cons_zero, Option.some.injEq] at h
      subst h
      simp only [List.set_cons_zero, List.countP_cons]
      omega
    | succ n =>
      simp only [List.getElem?_cons_succ] at h
      simp only [List.set_cons_succ, List.countP_cons]
      have := ih n h
      omega

/-! Structure of the first pass of `evaluateGuess`. -/

theorem pass1Step_result_length (g t : List Char) (s : EvalState) (i : Nat) :
    (pass1Step g t s i).result.length = s.result.length := by
  unfold pass1Step
  split <;> simp

theorem pass1Step_tl_length (g t : List Char) (s : EvalState) (i : Nat) :
    (pass1Step g t s i).targetLetters.length = s.targetLetters.length := by
  unfold pass1Step
  split <;> simp

theorem pass1_fold_result_length (g t : List Char) (l : List Nat) (s : EvalState) :
    (l.foldl (pass1Step g t) s).result.length = s.result.length := by
  induction l generalizing s with
  | nil => rfl
  | cons a l ih => rw [List.foldl_cons, ih, pass1Step_result_length]

theorem pass1_fold_tl_length (g t : List Char) (l : List Nat) (s : EvalState) :
    (l.foldl (pass1Step g t) s).targetLetters.length = s.targetLetters.length := by
  induction l generalizing s with
  | nil => rfl
  | cons a l ih => rw [List.foldl_cons, ih, pass1Step_tl_length]

theorem pass1Step_result_getElem? (g t : List Char) (s : EvalState) {i : Nat} (j : Nat)
    (hlen : s.result.length = 5) (hi : i < 5) :
    (pass1Step g t s j).result[i]? =
      if j = i ∧ g[j]? = t[j]? then some .correct else s.result[i]? := by
  unfold pass1Step
  by_cases hc : g[j]? = t[j]?
  · rw [if_pos hc]
    show (s.result.set j .correct)[i]? = _
    rw [List.getElem?_set]
    by_cases hji : j = i
    · subst hji
      simp [hlen, hi, hc]
    · simp [hji]
  · rw [if_neg hc]
    simp [hc]

theorem pass1Step_tl_getElem? (g t : List Char) (s : EvalState) {i : Nat} (j : Nat)
    (hi : i < s.targetLetters.length) :
    (pass1Step g t s j).targetLetters[i]? =
      if j = i ∧ g[j]? = t[j]? then some none else s.targetLetters[i]? := by
  unfold pass1Step
  by_cases hc : g[j]? = t[j]?
  · rw [if_pos hc]
    show (s.targetLetters.set j none)[i]? = _
    rw [List.getElem?_set]
    by_cases hji : j = i
    · subst hji
      simp [hi, hc]
    · simp [hji]
  · rw [if_neg hc]
    simp [hc]

theorem pass1_result_getElem? (g t : List Char) (n : Nat) (s : EvalState) {i : Nat}
    (hlen : s.result.length = 5) (hi : i < 5) :
    ((List.range n).foldl (pass1Step g t) s).result[i]? =
      if i < n ∧ g[i]? = t[i]? then some .correct else s.result[i]? := by
  induction n with
  | zero => simp
  | succ n ih =>
    rw [List.range_succ, List.foldl_append, List.foldl_cons, List.foldl_nil]
    have hFlen : ((List.range n).foldl (pass1Step g t) s).result.length = 5 := by
      rw [pass1_fold_result_length, hlen]
    rw [pass1Step_result_getElem? g t _ n hFlen hi, ih]
    by_cases hni : n = i
    · subst hni
      by_cases hc : g[n]? = t[n]?
      · simp [hc]
      · simp [hc]
    · by_cases hilt : i < n
      · by_cases hc : g[i]? = t[i]?
        · simp [hni, hilt, hc, Nat.lt_succ_of_lt hilt]
        · simp [hni, hilt, hc]
      · have : ¬ i < n + 1 := by omega
        simp [hni, hilt, this]

theorem pass1_tl_getElem? (g t : List Char) (n : Nat) (s : EvalState) {i : Nat}
    (hi : i < s.targetLetters.length) :
    ((List.range n).foldl (pass1Step g t) s).targetLetters[i]? =
      if i < n ∧ g[i]? = t[i]? then some none else s.targetLetters[i]? := by
  induction n with
  | zero => simp
  | succ n ih =>
    rw [List.range_succ, List.foldl_append, List.foldl_cons, List.foldl_nil]
    have hFi : i < ((List.range n).foldl (pass1Step g t) s).targetLetters.length := by
      rw [pass1_fold_tl_length]
      exact hi
    rw [pass1Step_tl_getElem? g t _ n hFi, ih]
    by_cases hni : n = i
    · subst hni
      by_cases hc : g[n]? = t[n]?
      · simp [hc]
      · simp [hc]
    · by_cases hilt : i < n
      · by_cases hc : g[i]? = t[i]?
        · simp [hni, hilt, hc, Nat.lt_succ_of_lt hilt]
        · simp [hni, hilt, hc]
      · have : ¬ i < n + 1 := by omega
        simp [hni, hilt, this]

/-! Structure of the second pass of `evaluateGuess`. -/

theorem pass2Step_result_length (g : List Char) (s : EvalState) (i : Nat) :
    (pass2Step g s i).result.length = s.result.length := by
  unfold pass2Step
  split
  · cases hgi : g[i]? with
    | none => rfl
    | some ch =>
      cases hidx : s.targetLetters.findIdx? (· == some ch) with
      | none => simp only [hidx]
      | some j => simp only [hidx]; simp
  · rfl

theorem pass2_fold_result_length (g : List Char) (l : List Nat) (s : EvalState) :
    (l.foldl (pass2Step g) s).result.length = s.result.length := by
  induction l generalizing s with
  | nil => rfl
  | cons a l ih => rw [List.foldl_cons, ih, pass2Step_result_length]

theorem pass2Step_correct_iff (g : List Char) (s : EvalState) (i j : Nat) :
    (pass2Step g s i).result[j]? = some .correct ↔ s.result[j]? = some .correct := by
  unfold pass2Step
  split
  · next habs =>
    cases hgi : g[i]? with
    | none => exact Iff.rfl
    | some ch =>
      cases hidx : s.targetLetters.findIdx? (· == some ch) with
      | none => simp only [hidx]
      | some k =>
        simp only [hidx]
        show (s.result.set i .present)[j]? = _ ↔ _
        rw [List.getElem?_set]
        by_cases hij : i = j
        · subst hij
          have hi_lt : i < s.result.length := by
            have := List.getElem?_eq_some.mp habs
            exact this.1
          simp [hi_lt, habs]
        · simp [hij]
  · exact Iff.rfl

theorem pass2Step_result_ne (g : List Char) (s : EvalState) {i j : Nat} (hij : i ≠ j) :
    (pass2Step g s i).result[j]? = s.result[j]? := by
  unfold pass2Step
  split
  · cases hgi : g[i]? with
    | none => rfl
    | some ch =>
      cases hidx : s.targetLetters.findIdx? (· == some ch) with
      | none => simp only [hidx]
      | some k =>
        simp only [hidx]
        show (s.result.set i .present)[j]? = _
        rw [List.getElem?_set_ne hij]
  · rfl

theorem pass2Step_of_guess_none (g : List Char) (s : EvalState) {i : Nat}
    (hg : g[i]? = none) : pass2Step g s i = s := by
  unfold pass2Step
  split
  · rw [hg]
  · rfl

theorem pass2_fold_result_of_guess_none (g : List Char) (n : Nat) (s : EvalState) {i : Nat}
    (hg : g[i]? = none) :
    ((List.range n).foldl (pass2Step g) s).result[i]? = s.result[i]? := by
  induction n with
  | zero => rfl
  | succ n ih =>
    rw [List.range_succ, List.foldl_append, List.foldl_cons, List.foldl_nil]
    by_cases hni : n = i
    · subst hni
      rw [pass2Step_of_guess_none g _ hg, ih]
    · rw [pass2Step_result_ne g _ hni, ih]

theorem pass2_fold_correct_iff (g : List Char) (n : Nat) (s : EvalState) (j : Nat) :
    ((List.range n).foldl (pass2Step g) s).result[j]? = some .correct ↔
      s.result[j]? = some .correct := by
  induction n with
  | zero => exact Iff.rfl
  | succ n ih =>
    rw [List.range_succ, List.foldl_append, List.foldl_cons, List.foldl_nil]
    rw [pass2Step_correct_iff]
    exact ih

theorem pass2Step_measure (g : List Char) (c : Char) (s : EvalState) (i : Nat)
    (hlen : s.result.length = 5) (hi : i < 5) :
    evalMeasure g c (pass2Step g s i) = evalMeasure g c s := by
  unfold pass2Step
  split
  · next habs =>
    cases hgi : g[i]? with
    | none => rfl
    | some ch =>
      cases hidx : s.targetLetters.findIdx? (· == some ch) with
      | none => simp only [hidx]
      | some k =>
        simp only [hidx]
        obtain ⟨hk_lt, hpk, -⟩ := List.findIdx?_eq_some_iff_getElem.mp hidx
        have htlk : s.targetLetters[k]? = some (some ch) := by
          rw [List.getElem?_eq_getElem hk_lt, eq_of_beq hpk]
        have hilen : i < s.result.length := by omega
        have hmark := idxCountP_update
          (fun j => decide (s.result[j]? = some .present) && decide (g[j]? = some c))
          (fun j =>
            decide ((s.result.set i .present)[j]? = some .present) && decide (g[j]? = some c))
          hi (fun j hj => by simp [List.getElem?_set_ne (Ne.symm hj)])
        have havail := countP_set (· == some c) s.targetLetters k none (some ch) htlk
        show markedCount (s.result.set i .present) g .present c +
            availCount (s.targetLetters.set k none) c = _
        simp only [evalMeasure, markedCount, availCount]
        simp only [habs, hgi, List.getElem?_set_self hilen] at hmark
        by_cases hcc : ch = c
        · subst hcc
          simp at hmark havail
          omega
        · simp [hcc] at hmark havail
          omega
  · rfl

theorem pass2_fold_measure (g : List Char) (c : Char) (n : Nat) (hn : n ≤ 5) (s : EvalState)
    (hlen : s.result.length = 5) :
    evalMeasure g c ((List.range n).foldl (pass2Step g) s) = evalMeasure g c s := by
  induction n with
  | zero => rfl
  | succ n ih =>
    rw [List.range_succ, List.foldl_append, List.foldl_cons, List.foldl_nil]
    rw [pass2Step_measure g c _ n (by rw [pass2_fold_result_length]; exact hlen) (by omega)]
    exact ih (by omega)

/-! Counting bridges and the characterisation of `evaluateGuess`. -/

theorem countP_eq_idxCountP {α : Type} (l : List α) (p : α → Bool) :
    l.countP p = idxCountP (fun i => (l[i]?).elim false p) l.length := by
  induction l with
  | nil => rfl
  | cons x xs ih =>
    rw [List.countP_cons]
    show _ = idxCountP _ (xs.length + 1)
    unfold idxCountP
    rw [List.range_succ_eq_map, List.countP_cons, List.countP_map]
    have hc : List.countP ((fun i => (((x :: xs : List α))[i]?).elim false p) ∘ Nat.succ)
        (List.range xs.length) = List.countP (fun i => ((xs[i]?).elim false p)) (List.range xs.length) := by
      refine List.countP_congr fun i _ => ?_
      simp
    rw [hc]
    have h0 : ((((x :: xs : List α))[0]?).elim false p) = p x := by simp
    rw [h0, ih]
    rfl

theorem idxCountP_add_pointwise {A B C : Nat → Bool} (n : Nat)
    (h : ∀ i, i < n →
      (if A i then 1 else 0) + (if B i then 1 else 0) = (if C i then 1 else 0)) :
    idxCountP A n + idxCountP B n = idxCountP C n := by
  induction n with
  | zero => rfl
  | succ n ih =>
    rw [idxCountP_succ, idxCountP_succ, idxCountP_succ]
    have h1 := h n (by omega)
    have h2 := ih fun i hi => h i (by omega)
    omega

theorem evaluateGuess_eq_pass2 (g t : List Char) :
    evaluateGuess g t = (pass2State g t).result := rfl

theorem pass1State_result_length (g t : List Char) : (pass1State g t).result.length = 5 := by
  unfold pass1State
  rw [pass1_fold_result_length]
  simp [initState]

theorem pass1State_tl_length (g t : List Char) :
    (pass1State g t).targetLetters.length = t.length := by
  unfold pass1State
  rw [pass1_fold_tl_length]
  simp [initState]

theorem evaluateGuess_length (g t : List Char) : (evaluateGuess g t).length = 5 := by
  rw [evaluateGuess_eq_pass2]
  unfold pass2State
  rw [pass2_fold_result_length, pass1State_result_length]

theorem pass1State_result_getElem? (g t : List Char) {i : Nat} (hi : i < 5) :
    (pass1State g t).result[i]? =
      if g[i]? = t[i]? then some .correct else some .absent := by
  unfold pass1State
  rw [pass1_result_getElem? g t 5 _ (by simp [initState]) hi]
  have hrep : (initState t).result[i]? = some .absent := by
    show (List.replicate 5 LetterState.absent)[i]? = some .absent
    rw [List.getElem?_replicate, if_pos hi]
  by_cases hc : g[i]? = t[i]? <;> simp [hc, hi, hrep]

theorem pass1State_tl_getElem? (g t : List Char) {i : Nat} (hi : i < t.length)
    (hi5 : i < 5) :
    (pass1State g t).targetLetters[i]? =
      if g[i]? = t[i]? then some none else some (some (t.get ⟨i, hi⟩)) := by
  unfold pass1State
  rw [pass1_tl_getElem? g t 5 _ (by simp [initState]; exact hi)]
  by_cases hc : g[i]? = t[i]?
  · simp [initState, hc, hi5]
  · simp [initState, hc, hi5, List.getElem?_eq_getElem hi]

theorem evaluateGuess_correct_iff (g t : List Char) {i : Nat} (hi : i < 5) :
    (evaluateGuess g t)[i]? = some .correct ↔ g[i]? = t[i]? := by
  rw [evaluateGuess_eq_pass2]
  unfold pass2State
  rw [pass2_fold_correct_iff, pass1State_result_getElem? g t hi]
  by_cases hc : g[i]? = t[i]? <;> simp [hc]

theorem evaluateGuess_beyond_guess (g t : List Char) {i : Nat} (hi : i < 5)
    (hg : g.length ≤ i) :
    (evaluateGuess g t)[i]? = some (if t.length ≤ i then .correct else .absent) := by
  have hgn : g[i]? = none := List.getElem?_eq_none hg
  rw [evaluateGuess_eq_pass2]
  unfold pass2State
  rw [pass2_fold_result_of_guess_none g 5 _ hgn, pass1State_result_getElem? g t hi]
  by_cases ht : t.length ≤ i
  · have htn : t[i]? = none := List.getElem?_eq_none ht
    simp [hgn, htn, ht]
  · have htn : t[i]? = some (t.get ⟨i, by omega⟩) := List.getElem?_eq_getElem (by omega)
    simp [hgn, htn, ht]

theorem pass1_no_present (g t : List Char) (c : Char) :
    markedCount (pass1State g t).result g .present c = 0 := by
  rw [markedCount]
  unfold idxCountP
  rw [List.countP_eq_zero]
  intro i hmem
  have hi5 : i < 5 := List.mem_range.mp hmem
  by_cases hc : g[i]? = t[i]? <;>
    simp [pass1State_result_getElem? g t hi5, hc]

theorem pass1_budget (g t : List Char) (ht : t.length = 5) (c : Char) :
    availCount (pass1State g t).targetLetters c +
      markedCount (pass1State g t).result g .correct c = t.count c := by
  rw [availCount, countP_eq_idxCountP, pass1State_tl_length, ht, markedCount,
    List.count_eq_countP, countP_eq_idxCountP, ht]
  refine idxCountP_add_pointwise 5 fun i hi => ?_
  have hit : i < t.length := by omega
  have hti : t[i]? = some t[i] := List.getElem?_eq_getElem hit
  rw [pass1State_tl_getElem? g t hit hi, pass1State_result_getElem? g t hi, hti]
  by_cases hc : g[i]? = some t[i]
  · by_cases htc : t[i] = c
    · have hgc : g[i]? = some c := by rw [hc, htc]
      simp [hc, htc, hgc]
    · have hgc : ¬ g[i]? = some c := by rw [hc]; simp [htc]
      simp [hc, htc, hgc]
  · by_cases htc : t[i] = c
    · rw [htc] at hc
      simp [hc, htc]
    · simp [hc, htc]

theorem pass2_marked_correct (g t : List Char) (c : Char) :
    markedCount (pass2State g t).result g .correct c =
      markedCount (pass1State g t).result g .correct c := by
  rw [markedCount, markedCount]
  refine idxCountP_congr fun i _ => ?_
  have h : (pass2State g t).result[i]? = some .correct ↔
      (pass1State g t).result[i]? = some .correct :=
    pass2_fold_correct_iff g 5 (pass1State g t) i
  exact congrArg (· && decide (g[i]? = some c)) (decide_eq_decide.mpr h)

/-- C1: for 5-letter guess and target, `evaluateGuess` marks position
`i` `correct` iff the guess and target letters at `i` agree, and for
every letter `c` the number of `present` marks carrying `c` is at most
the number of occurrences of `c` in the target minus the number of
correct-position matches of `c`. -/
theorem evaluateGuess_scoring_spec (g t : List Char) (_hg : g.length = 5) (ht : t.length = 5) :
    (∀ i, i < 5 → ((evaluateGuess g t)[i]? = some .correct ↔ g[i]? = t[i]?)) ∧
    ∀ c : Char,
      markedCount (evaluateGuess g t) g .present c ≤
        t.count c - markedCount (evaluateGuess g t) g .correct c := by
  refine ⟨fun i hi => evaluateGuess_correct_iff g t hi, fun c => ?_⟩
  have hmeas : evalMeasure g c (pass2State g t) = evalMeasure g c (pass1State g t) :=
    pass2_fold_measure g c 5 (by omega) (pass1State g t) (pass1State_result_length g t)
  unfold evalMeasure at hmeas
  have hnp := pass1_no_present g t c
  have hb := pass1_budget g t ht c
  rw [evaluateGuess_eq_pass2, pass2_marked_correct g t c]
  omega

/-- Concrete instantiation of `evaluateGuess_scoring_spec` at guess
`LLAMA`, target `ALLOW`, position 1 and letter `A`. -/
theorem evaluateGuess_scoring_spec_witness :
    ((evaluateGuess ['L', 'L', 'A', 'M', 'A'] ['A', 'L', 'L', 'O', 'W'])[1]? =
        some LetterState.correct ↔
      (['L', 'L', 'A', 'M', 'A'] : List Char)[1]? = (['A', 'L', 'L', 'O', 'W'] : List Char)[1]?) ∧
    markedCount (evaluateGuess ['L', 'L', 'A', 'M', 'A'] ['A', 'L', 'L', 'O', 'W'])
        ['L', 'L', 'A', 'M', 'A'] .present 'A' ≤
      (['A', 'L', 'L', 'O', 'W'] : List Char).count 'A' -
        markedCount (evaluateGuess ['L', 'L', 'A', 'M', 'A'] ['A', 'L', 'L', 'O', 'W'])
          ['L', 'L', 'A', 'M', 'A'] .correct 'A' :=
  ⟨(evaluateGuess_scoring_spec ['L', 'L', 'A', 'M', 'A'] ['A', 'L', 'L', 'O', 'W'] rfl rfl).1 1
      (by decide),
   (evaluateGuess_scoring_spec ['L', 'L', 'A', 'M', 'A'] ['A', 'L', 'L', 'O', 'W'] rfl rfl).2 'A'⟩

/-- C9 counterexample: with empty guess and empty target, position 0
lies beyond the guess's length yet is marked `correct` (JS compares
`undefined === undefined`), not `absent` as the claim states. -/
theorem evaluateGuess_beyond_counterexample :
    ([] : List Char).length ≤ 0 ∧
    (evaluateGuess [] [])[0]? = some LetterState.correct ∧
    ¬ (evaluateGuess [] [])[0]? = some LetterState.absent := by decide

/-- C9 amended: `evaluateGuess` is total and always returns exactly 5
letter states; a position beyond the guess's length is marked `absent`
when it is still within the target's length, but `correct` when it is
beyond both strings' lengths. -/
theorem evaluateGuess_total_shape (g t : List Char) :
    (evaluateGuess g t).length = 5 ∧
    ∀ i, i < 5 → g.length ≤ i →
      (evaluateGuess g t)[i]? = some (if t.length ≤ i then .correct else .absent) :=
  ⟨evaluateGuess_length g t, fun _ hi hgi => evaluateGuess_beyond_guess g t hi hgi⟩

/-- Concrete instantiation of `evaluateGuess_total_shape` at guess `A`,
target `ABC`, positions 2 (absent: within the target) and 4 (correct:
beyond both). -/
theorem evaluateGuess_total_shape_witness :
    (evaluateGuess ['A'] ['A', 'B', 'C']).length = 5 ∧
    (evaluateGuess ['A'] ['A', 'B', 'C'])[2]? =
      some (if (['A', 'B', 'C'] : List Char).length ≤ 2 then LetterState.correct
        else LetterState.absent) ∧
    (evaluateGuess ['A'] ['A', 'B', 'C'])[4]? =
      some (if (['A', 'B', 'C'] : List Char).length ≤ 4 then LetterState.correct
        else LetterState.absent) :=
  ⟨(evaluateGuess_total_shape ['A'] ['A', 'B', 'C']).1,
   (evaluateGuess_total_shape ['A'] ['A', 'B', 'C']).2 2 (by decide) (by decide),
   (evaluateGuess_total_shape ['A'] ['A', 'B', 'C']).2 4 (by decide) (by decide)⟩

/-- C3 counterexample: `QQQQQ` has length 5 so the validator accepts it,
yet it is not in the word corpus — dictionary membership is not
checked. -/
theorem isValidWord_corpus_counterexample :
    isValidWord ['Q', 'Q', 'Q', 'Q', 'Q'] = true ∧ ['Q', 'Q', 'Q', 'Q', 'Q'] ∉ WORDS := by
  decide

/-- C3 amended: the validator is a total boolean function that accepts a
candidate exactly when its length is 5; corpus membership is not
consulted. -/
theorem isValidWord_spec (w : List Char) :
    isValidWord w = true ↔ w.length = 5 := by
  simp [isValidWord]

/-! Keyboard-state aggregation. -/

theorem kbStep_apply (m : Char → Option LetterState) (l : Char) (n : Option LetterState)
    (x : Char) :
    kbStep m l n x = if x = l then maxOpt (m l) n else m x := by
  have key : ∀ cur new : Option LetterState,
      (if shouldOverride cur new = true then new else cur) = maxOpt cur new := by decide
  unfold kbStep
  by_cases hx : x = l
  · subst hx
    by_cases hov : shouldOverride (m x) n
    · rw [if_pos hov, Function.update_same, if_pos rfl, ← key (m x) n, if_pos hov]
    · rw [if_neg hov, if_pos rfl, ← key (m x) n, if_neg hov]
  · by_cases hov : shouldOverride (m l) n
    · rw [if_pos hov, Function.update_noteq hx, if_neg hx]
    · rw [if_neg hov, if_neg hx]

theorem kbFold_apply (ev : List LetterState) (ps : List (Nat × Char))
    (m : Char → Option LetterState) (c : Char) :
    (ps.foldl (fun m p => kbStep m p.2 ev[p.1]?) m) c =
      (ps.filterMap fun p => if p.2 = c then some ev[p.1]? else none).foldl maxOpt (m c) := by
  induction ps generalizing m with
  | nil => rfl
  | cons p ps ih =>
    rw [List.foldl_cons, ih, List.filterMap_cons]
    by_cases hp : p.2 = c
    · rw [if_pos hp, List.foldl_cons]
      congr 1
      rw [kbStep_apply, if_pos hp.symm, hp]
    · rw [if_neg hp]
      congr 1
      rw [kbStep_apply, if_neg fun h => hp h.symm]

theorem applyGuessKB_apply (word : List Char) (m : Char → Option LetterState)
    (g : List Char) (c : Char) :
    applyGuessKB word m g c = (occStates word g c).foldl maxOpt (m c) :=
  kbFold_apply (evaluateGuess g word) g.enum m c

theorem kbGuessFold_apply (word : List Char) (gs : List (List Char))
    (m : Char → Option LetterState) (c : Char) :
    (gs.foldl (applyGuessKB word) m) c = (occList word gs c).foldl maxOpt (m c) := by
  induction gs generalizing m with
  | nil => rfl
  | cons g gs ih =>
    rw [List.foldl_cons, ih]
    unfold occList
    rw [List.flatMap_cons, List.foldl_append]
    congr 1
    exact applyGuessKB_apply word m g c

theorem updateKeyboardStates_apply (word : List Char) (gs : List (List Char)) (c : Char) :
    updateKeyboardStates word gs c = (occList word gs c).foldl maxOpt none :=
  kbGuessFold_apply word gs (fun _ => none) c

instance : RightCommutative maxOpt := ⟨by decide⟩

theorem stateVal_le_foldl (l : List (Option LetterState)) (b : Option LetterState) :
    stateVal b ≤ stateVal (l.foldl maxOpt b) := by
  induction l generalizing b with
  | nil => exact Nat.le_refl _
  | cons x l ih =>
    rw [List.foldl_cons]
    have h1 : ∀ a x : Option LetterState, stateVal a ≤ stateVal (maxOpt a x) := by decide
    exact Nat.le_trans (h1 b x) (ih (maxOpt b x))

theorem foldl_maxOpt_mem (l : List (Option LetterState)) (b : Option LetterState) :
    l.foldl maxOpt b = b ∨ l.foldl maxOpt b ∈ l := by
  induction l generalizing b with
  | nil => exact Or.inl rfl
  | cons x l ih =>
    rw [List.foldl_cons]
    rcases ih (maxOpt b x) with h | h
    · have hbx : maxOpt b x = b ∨ maxOpt b x = x := by
        unfold maxOpt
        split
        · exact Or.inr rfl
        · exact Or.inl rfl
      rcases hbx with h' | h'
      · exact Or.inl (by rw [h, h'])
      · refine Or.inr ?_
        rw [h, h']
        exact List.mem_cons_self x l
    · exact Or.inr (List.mem_cons_of_mem x h)

theorem foldl_maxOpt_ub (l : List (Option LetterState)) (b : Option LetterState) :
    ∀ o ∈ l, stateVal o ≤ stateVal (l.foldl maxOpt b) := by
  induction l generalizing b with
  | nil => intro o h; cases h
  | cons x l ih =>
    intro o ho
    rw [List.foldl_cons]
    rcases List.mem_cons.mp ho with h | h
    · subst h
      have h1 : ∀ b o : Option LetterState, stateVal o ≤ stateVal (maxOpt b o) := by decide
      exact Nat.le_trans (h1 b o) (stateVal_le_foldl l (maxOpt b o))
    · exact ih (maxOpt b x) o h

theorem occStates_isSome (word g : List Char) (c : Char) (h5 : g.length = 5) :
    ∀ o ∈ occStates word g c, ∃ st, o = some st := by
  intro o ho
  obtain ⟨p, hp_mem, hp_eq⟩ := List.mem_filterMap.mp ho
  by_cases hpc : p.2 = c
  · rw [if_pos hpc, Option.some.injEq] at hp_eq
    have hip : p.1 < g.length := by
      obtain ⟨i, a⟩ := p
      have := List.mk_mem_enum_iff_getElem?.mp hp_mem
      have : i < g.length := by
        by_contra hilt
        rw [List.getElem?_eq_none (by omega)] at this
        exact Option.noConfusion this
      exact this
    have hb : p.1 < (evaluateGuess g word).length := by
      rw [evaluateGuess_length]
      omega
    refine ⟨(evaluateGuess g word).get ⟨p.1, hb⟩, ?_⟩
    rw [← hp_eq]
    exact List.getElem?_eq_getElem hb
  · rw [if_neg hpc] at hp_eq
    exact Option.noConfusion hp_eq

theorem occList_isSome (word : List Char) (gs : List (List Char)) (c : Char)
    (h5 : ∀ g ∈ gs, g.length = 5) :
    ∀ o ∈ occList word gs c, ∃ st, o = some st := by
  intro o ho
  obtain ⟨g, hg_mem, hog⟩ := List.mem_flatMap.mp ho
  exact occStates_isSome word g c (h5 g hg_mem) o hog

/-- C4: the keyboard aggregation assigns each letter the maximum
(`absent < present < correct`) of the evaluation states it receives
across the player's guesses; consequently re-running it over the same
sequence yields the identical map, appending a guess never downgrades a
letter's state, and permuting guesses that share no letters leaves the
final map unchanged. -/
theorem updateKeyboardStates_spec (w : List Char) (gs : List (List Char))
    (h5 : ∀ g ∈ gs, g.length = 5) :
    (∀ c, (occList w gs c = [] → updateKeyboardStates w gs c = none) ∧
      (occList w gs c ≠ [] → updateKeyboardStates w gs c ∈ occList w gs c ∧
        ∀ o ∈ occList w gs c, stateVal o ≤ stateVal (updateKeyboardStates w gs c))) ∧
    updateKeyboardStates w gs = updateKeyboardStates w gs ∧
    (∀ g c, stateVal (updateKeyboardStates w gs c) ≤
      stateVal (updateKeyboardStates w (gs ++ [g]) c)) ∧
    ∀ gs', gs.Perm gs' → gs.Pairwise lettersDisjoint →
      updateKeyboardStates w gs = updateKeyboardStates w gs' := by
  refine ⟨fun c => ⟨fun hemp => ?_, fun hne => ?_⟩, rfl, fun g c => ?_, fun gs' hperm _ => ?_⟩
  · rw [updateKeyboardStates_apply, hemp]
    rfl
  · rw [updateKeyboardStates_apply]
    rcases foldl_maxOpt_mem (occList w gs c) none with hmem | hmem
    · exfalso
      obtain ⟨o, ho⟩ := List.exists_mem_of_ne_nil _ hne
      obtain ⟨st, rfl⟩ := occList_isSome w gs c h5 o ho
      have hub := foldl_maxOpt_ub (occList w gs c) none (some st) ho
      rw [hmem] at hub
      have hpos : 1 ≤ stateVal (some st) := by cases st <;> decide
      rw [show stateVal (none : Option LetterState) = 0 from rfl] at hub
      omega
    · exact ⟨hmem, foldl_maxOpt_ub _ _⟩
  · rw [updateKeyboardStates_apply, updateKeyboardStates_apply]
    have hsplit : occList w (gs ++ [g]) c = occList w gs c ++ occStates w g c := by
      unfold occList
      rw [List.flatMap_append, List.flatMap_singleton]
    rw [hsplit, List.foldl_append]
    exact stateVal_le_foldl _ _
  · funext c
    rw [updateKeyboardStates_apply, updateKeyboardStates_apply]
    exact (hperm.flatMap_right fun g => occStates w g c).foldl_eq none

/-- Concrete instantiation of `updateKeyboardStates_spec`: target
`WATER`, guesses `CLOUD` and `TRAIN` (letter-disjoint), appending
`WATER`, and the swap permutation. -/
theorem updateKeyboardStates_spec_witness :
    stateVal (updateKeyboardStates ['W', 'A', 'T', 'E', 'R']
        [['C', 'L', 'O', 'U', 'D'], ['T', 'R', 'A', 'I', 'N']] 'T') ≤
      stateVal (updateKeyboardStates ['W', 'A', 'T', 'E', 'R']
        ([['C', 'L', 'O', 'U', 'D'], ['T', 'R', 'A', 'I', 'N']] ++ [['W', 'A', 'T', 'E', 'R']])
        'T') ∧
    updateKeyboardStates ['W', 'A', 'T', 'E', 'R']
        [['C', 'L', 'O', 'U', 'D'], ['T', 'R', 'A', 'I', 'N']] =
      updateKeyboardStates ['W', 'A', 'T', 'E', 'R']
        [['T', 'R', 'A', 'I', 'N'], ['C', 'L', 'O', 'U', 'D']] :=
by
  have hdisj : lettersDisjoint ['C', 'L', 'O', 'U', 'D'] ['T', 'R', 'A', 'I', 'N'] := by
    intro c hc
    fin_cases hc <;> decide
  refine ⟨(updateKeyboardStates_spec ['W', 'A', 'T', 'E', 'R']
      [['C', 'L', 'O', 'U', 'D'], ['T', 'R', 'A', 'I', 'N']] (by decide)).2.2.1
      ['W', 'A', 'T', 'E', 'R'] 'T',
    (updateKeyboardStates_spec ['W', 'A', 'T', 'E', 'R']
      [['C', 'L', 'O', 'U', 'D'], ['T', 'R', 'A', 'I', 'N']] (by decide)).2.2.2
      [['T', 'R', 'A', 'I', 'N'], ['C', 'L', 'O', 'U', 'D']]
      (List.Perm.swap ['T', 'R', 'A', 'I', 'N'] ['C', 'L', 'O', 'U', 'D'] []) ?_⟩
  refine List.Pairwise.cons (fun g hg => ?_) (by simp)
  rw [List.mem_singleton] at hg
  subst hg
  exact hdisj

/-! The game-board session model. -/

theorem gbUpdateKB_fields (s : GBState) :
    (gbUpdateKB s).guesses = s.guesses ∧ (gbUpdateKB s).status = s.status ∧
    (gbUpdateKB s).winnerId = s.winnerId ∧ (gbUpdateKB s).currentGuess = s.currentGuess ∧
    (gbUpdateKB s).gamePlayers = s.gamePlayers ∧
    (gbUpdateKB s).showInvalidWordAlert = s.showInvalidWordAlert := by
  unfold gbUpdateKB
  split <;> exact ⟨rfl, rfl, rfl, rfl, rfl, rfl⟩

/-- C8: the `games` UPDATE handler overwrites exactly the local status
and winner with the event's values — unconditionally, even when the
local status is already `completed` (the statement carries no hypothesis
on `s`) — and leaves the guess list, the player list, the keyboard map
and the rest of the session untouched. -/
theorem applyGameStatusChanged_spec (s : GBState) (st : GameStatus) (w : Option String) :
    (applyGameStatusChanged s st w).status = st ∧
    (applyGameStatusChanged s st w).winnerId = w ∧
    (applyGameStatusChanged s st w).guesses = s.guesses ∧
    (applyGameStatusChanged s st w).gamePlayers = s.gamePlayers ∧
    (applyGameStatusChanged s st w).keyboard = s.keyboard ∧
    (applyGameStatusChanged s st w).currentGuess = s.currentGuess ∧
    (applyGameStatusChanged s st w).showInvalidWordAlert = s.showInvalidWordAlert :=
  ⟨rfl, rfl, rfl, rfl, rfl, rfl, rfl⟩

theorem applyGuessAdded_dup (s : GBState) (g : GuessRec)
    (h : s.guesses.any (fun r => r.id == g.id) = true) : applyGuessAdded s g = s := by
  unfold applyGuessAdded
  rw [if_pos h]

theorem applyGuessAdded_new (s : GBState) (g : GuessRec)
    (h : ¬ s.guesses.any (fun r => r.id == g.id) = true) :
    applyGuessAdded s g = gbUpdateKB { s with guesses := s.guesses ++ [g] } := by
  unfold applyGuessAdded
  rw [if_neg h]

/-- C5: applying a `GuessAdded` event is idempotent in the guess id — a
duplicate id leaves the state untouched, a new guess is appended once,
re-applying the same event is a no-op, and after applying the same event
twice exactly one stored guess carries that id. -/
theorem applyGuessAdded_spec (s : GBState) (g : GuessRec) :
    ((∃ r ∈ s.guesses, r.id = g.id) → applyGuessAdded s g = s) ∧
    (¬ (∃ r ∈ s.guesses, r.id = g.id) →
      (applyGuessAdded s g).guesses = s.guesses ++ [g]) ∧
    applyGuessAdded (applyGuessAdded s g) g = applyGuessAdded s g ∧
    (¬ (∃ r ∈ s.guesses, r.id = g.id) →
      ((applyGuessAdded (applyGuessAdded s g) g).guesses.countP fun r => r.id == g.id) = 1) := by
  have hany : s.guesses.any (fun r => r.id == g.id) = true ↔ ∃ r ∈ s.guesses, r.id = g.id := by
    simp [List.any_eq_true]
  by_cases hdup : s.guesses.any (fun r => r.id == g.id) = true
  · have h1 := applyGuessAdded_dup s g hdup
    exact ⟨fun _ => h1, fun hn => absurd (hany.mp hdup) hn, by rw [h1, h1],
      fun hn => absurd (hany.mp hdup) hn⟩
  · have h1 := applyGuessAdded_new s g hdup
    have hg1 : (applyGuessAdded s g).guesses = s.guesses ++ [g] := by
      rw [h1, (gbUpdateKB_fields _).1]
    have hany2 : (applyGuessAdded s g).guesses.any (fun r => r.id == g.id) = true := by
      rw [hg1]
      simp
    have hidem : applyGuessAdded (applyGuessAdded s g) g = applyGuessAdded s g :=
      applyGuessAdded_dup _ g hany2
    refine ⟨fun hex => absurd (hany.mpr hex) hdup, fun _ => hg1, hidem, fun _ => ?_⟩
    rw [hidem, hg1, List.countP_append]
    have hz : s.guesses.countP (fun r => r.id == g.id) = 0 := by
      rw [List.countP_eq_zero]
      intro r hr
      have hfalse : s.guesses.any (fun r => r.id == g.id) = false := by
        cases hb : s.guesses.any (fun r => r.id == g.id)
        · rfl
        · exact absurd hb hdup
      exact List.any_eq_false.mp hfalse r hr
    rw [hz]
    simp

/-- Concrete instantiation of `applyGuessAdded_spec`: re-applying the
echo of a fresh guess to the example session stores it exactly once. -/
theorem applyGuessAdded_spec_witness :
    applyGuessAdded (applyGuessAdded exampleCompleted ⟨"g2", "p2", ['H', 'O', 'U', 'S', 'E']⟩)
        ⟨"g2", "p2", ['H', 'O', 'U', 'S', 'E']⟩ =
      applyGuessAdded exampleCompleted ⟨"g2", "p2", ['H', 'O', 'U', 'S', 'E']⟩ ∧
    ((applyGuessAdded (applyGuessAdded exampleCompleted ⟨"g2", "p2", ['H', 'O', 'U', 'S', 'E']⟩)
        ⟨"g2", "p2", ['H', 'O', 'U', 'S', 'E']⟩).guesses.countP fun r => r.id == "g2") = 1 :=
  ⟨(applyGuessAdded_spec exampleCompleted ⟨"g2", "p2", ['H', 'O', 'U', 'S', 'E']⟩).2.2.1,
   (applyGuessAdded_spec exampleCompleted ⟨"g2", "p2", ['H', 'O', 'U', 'S', 'E']⟩).2.2.2
     (by decide)⟩

/-- C2: when the game is completed, or the player's own guess count has
reached `max_attempts`, every key press — in particular a submission
attempt via ENTER — is rejected up front: the state is returned
untouched and no server effect (no guess INSERT) is emitted, for any
player including the winner. -/
theorem gbHandleKeyPress_gameOver (s : GBState) (fid : String) (key : List Char)
    (h : s.status = .completed ∨ (ownGuesses s).length ≥ s.maxAttempts) :
    gbHandleKeyPress s fid key = (s, []) := by
  unfold gbHandleKeyPress
  split
  · rfl
  · split
    · rfl
    · next hcond =>
      exfalso
      simp only [Bool.or_eq_true, beq_iff_eq, decide_eq_true_eq, not_or] at hcond
      rcases h with h | h
      · exact hcond.1.1 h
      · exact hcond.1.2 h

/-- Concrete instantiation of `gbHandleKeyPress_gameOver`: the winner
pressing ENTER in the completed example session changes nothing. -/
theorem gbHandleKeyPress_gameOver_witness :
    gbHandleKeyPress exampleCompleted "fresh" ("ENTER".data) = (exampleCompleted, []) :=
  gbHandleKeyPress_gameOver exampleCompleted "fresh" ("ENTER".data) (Or.inl rfl)

/-- C7 counterexample: the buffer `ABCD` fails word validation, and the
submission then changes nothing at all — in particular, contrary to the
claim, no invalid-word notice is raised (the short-buffer guard returns
before the notice branch). -/
theorem submitGuess_validation_counterexample :
    isValidWord exampleShortGuess.currentGuess = false ∧
    gbSubmitGuess exampleShortGuess "fresh" = (exampleShortGuess, []) ∧
    (gbSubmitGuess exampleShortGuess "fresh").1.showInvalidWordAlert = false := by
  have h2 : gbSubmitGuess exampleShortGuess "fresh" = (exampleShortGuess, []) := by rfl
  exact ⟨rfl, h2, by rw [h2]; rfl⟩

/-- C7 amended: a submission whose buffer fails the shipped validator
(equivalently, whose length is not 5) returns with no state change and
no effect — no guess recorded, no attempt consumed — but also with no
invalid-word notice: the notice branch is unreachable because
submission requires a full 5-letter buffer and the shipped validator
accepts every 5-letter string.  This holds for both the game-board and
the solo components. -/
theorem submitGuess_validation_spec :
    (∀ (s : GBState) (fid : String), isValidWord s.currentGuess = false →
      gbSubmitGuess s fid = (s, [])) ∧
    (∀ s : SoloState, isValidWord s.currentGuess = false → soloSubmitGuess s = s) ∧
    (∀ w : List Char, w.length = 5 → isValidWord w = true) := by
  refine ⟨fun s fid h => ?_, fun s h => ?_, fun w h => by simp [isValidWord, h]⟩
  · have hlen : s.currentGuess.length ≠ 5 := by simpa [isValidWord] using h
    unfold gbSubmitGuess
    rw [if_pos (Or.inl hlen)]
  · have hlen : s.currentGuess.length ≠ 5 := by simpa [isValidWord] using h
    unfold soloSubmitGuess
    rw [if_pos (Or.inl hlen)]

/-- Concrete instantiation of `submitGuess_validation_spec` at the
4-letter buffer `ABCD` and the 5-letter non-dictionary word `ABCDE`. -/
theorem submitGuess_validation_spec_witness :
    gbSubmitGuess exampleShortGuess "fresh" = (exampleShortGuess, []) ∧
    isValidWord ['A', 'B', 'C', 'D', 'E'] = true :=
  ⟨submitGuess_validation_spec.1 exampleShortGuess "fresh" rfl,
   submitGuess_validation_spec.2.2 ['A', 'B', 'C', 'D', 'E'] rfl⟩

theorem gbSubmitGuess_guard_neg (s : GBState) (pid : String) (hpid : s.playerId = some pid)
    (hlen : s.currentGuess.length = 5) (hsub : s.isSubmitting = false) :
    ¬ (s.currentGuess.length ≠ 5 ∨ s.isSubmitting = true ∨ s.playerId = none) := by
  rintro (h | h | h)
  · exact h hlen
  · rw [hsub] at h
    exact Bool.false_ne_true h
  · rw [hpid] at h
    exact Option.noConfusion h

theorem gbSubmitGuess_multi_eq (s : GBState) (fid pid : String)
    (hpid : s.playerId = some pid) (hlen : s.currentGuess.length = 5)
    (hsub : s.isSubmitting = false) (hm : s.isMultiplayer = true) :
    gbSubmitGuess s fid =
      ({ s with currentGuess := [] },
        GBEffect.insertGuess pid s.currentGuess ::
          (if s.currentGuess = s.word then [GBEffect.updateGame .completed pid] else [])) := by
  have hv : isValidWord s.currentGuess = true := by simp [isValidWord, hlen]
  unfold gbSubmitGuess
  rw [if_neg (gbSubmitGuess_guard_neg s pid hpid hlen hsub)]
  simp only [hpid]
  rw [if_neg (by simp [hv]), if_neg (by simp [hm])]

theorem gbSubmitGuess_solo_eq (s : GBState) (fid pid : String)
    (hpid : s.playerId = some pid) (hlen : s.currentGuess.length = 5)
    (hsub : s.isSubmitting = false) (hm : s.isMultiplayer = false) :
    gbSubmitGuess s fid =
      ({ gbUpdateKB (if s.currentGuess = s.word
            then { { s with
                     guesses := s.guesses ++ [(⟨fid, pid, s.currentGuess⟩ : GuessRec)] } with
                    status := .completed }
            else { s with
                   guesses := s.guesses ++ [(⟨fid, pid, s.currentGuess⟩ : GuessRec)] })
          with currentGuess := [] }, []) := by
  have hv : isValidWord s.currentGuess = true := by simp [isValidWord, hlen]
  unfold gbSubmitGuess
  rw [if_neg (gbSubmitGuess_guard_neg s pid hpid hlen hsub)]
  simp only [hpid]
  rw [if_neg (by simp [hv]), if_pos (by simp [hm])]

/-- C6: a submitted guess that exactly equals the target completes the
game at once — the multiplayer branch emits a `games` UPDATE with status
`completed` and the submitting player as winner, the local solo branch
of the game board sets the status ref to `completed`, and the solo
component sets its game-over and winner flags; in the solo component the
game also ends when the 6th guess is used up without a match; and an
accepted non-matching guess below the limit leaves the game in
progress (status unchanged, no UPDATE emitted). -/
theorem submitGuess_completion_spec :
    (∀ (s : GBState) (fid pid : String),
      s.playerId = some pid → s.currentGuess.length = 5 → s.isSubmitting = false →
      s.isMultiplayer = true → s.currentGuess = s.word →
      gbSubmitGuess s fid =
        ({ s with currentGuess := [] },
          [GBEffect.insertGuess pid s.currentGuess,
           GBEffect.updateGame .completed pid])) ∧
    (∀ (s : GBState) (fid pid : String),
      s.playerId = some pid → s.currentGuess.length = 5 → s.isSubmitting = false →
      s.isMultiplayer = false → s.currentGuess = s.word →
      (gbSubmitGuess s fid).1.status = .completed) ∧
    (∀ (s : GBState) (fid pid : String),
      s.playerId = some pid → s.currentGuess.length = 5 → s.isSubmitting = false →
      ¬ s.currentGuess = s.word →
      (gbSubmitGuess s fid).1.status = s.status ∧
      ∀ st w, GBEffect.updateGame st w ∉ (gbSubmitGuess s fid).2) ∧
    (∀ s : SoloState, s.isGameOver = false → s.currentGuess.length = 5 →
      (s.currentGuess = s.word →
        (soloSubmitGuess s).isGameOver = true ∧ (soloSubmitGuess s).isWinner = true) ∧
      (¬ s.currentGuess = s.word → 6 ≤ s.guesses.length + 1 →
        (soloSubmitGuess s).isGameOver = true) ∧
      (¬ s.currentGuess = s.word → s.guesses.length + 1 < 6 →
        (soloSubmitGuess s).isGameOver = false)) := by
  refine ⟨fun s fid pid hpid hlen hsub hm hwin => ?_,
    fun s fid pid hpid hlen hsub hm hwin => ?_,
    fun s fid pid hpid hlen hsub hwin => ?_,
    fun s hgo hlen => ?_⟩
  · rw [gbSubmitGuess_multi_eq s fid pid hpid hlen hsub hm, if_pos hwin]
  · rw [gbSubmitGuess_solo_eq s fid pid hpid hlen hsub hm, if_pos hwin]
    exact ((gbUpdateKB_fields _).2.1)
  · by_cases hm : s.isMultiplayer
    · rw [gbSubmitGuess_multi_eq s fid pid hpid hlen hsub hm, if_neg hwin]
      exact ⟨rfl, by intro st w hmem; simp at hmem⟩
    · rw [gbSubmitGuess_solo_eq s fid pid hpid hlen hsub (by simpa using hm), if_neg hwin]
      exact ⟨(gbUpdateKB_fields _).2.1, by intro st w hmem; simp at hmem⟩
  · have hguard : ¬ (s.currentGuess.length ≠ 5 ∨ s.isGameOver = true) := by
      rintro (h | h)
      · exact h hlen
      · rw [hgo] at h
        exact Bool.false_ne_true h
    have hv : isValidWord s.currentGuess = true := by simp [isValidWord, hlen]
    refine ⟨fun hwin => ?_, fun hwin hfull => ?_, fun hwin hunder => ?_⟩
    · unfold soloSubmitGuess
      rw [if_neg hguard, if_neg (by simp [hv]), if_pos hwin]
      exact ⟨rfl, rfl⟩
    · unfold soloSubmitGuess
      rw [if_neg hguard, if_neg (by simp [hv]), if_neg hwin,
        if_pos (by simp; omega)]
    · unfold soloSubmitGuess
      rw [if_neg hguard, if_neg (by simp [hv]), if_neg hwin,
        if_neg (by simp; omega)]
      exact hgo

/-- Concrete instantiation of `submitGuess_completion_spec`: submitting
`WATER` for target `WATER` in the active example sessions. -/
theorem submitGuess_completion_spec_witness :
    gbSubmitGuess exampleActive "fresh" =
      ({ exampleActive with currentGuess := [] },
        [GBEffect.insertGuess "p1" exampleActive.currentGuess,
         GBEffect.updateGame .completed "p1"]) ∧
    (soloSubmitGuess exampleSoloActive).isGameOver = true ∧
    (soloSubmitGuess exampleSoloActive).isWinner = true :=
  ⟨submitGuess_completion_spec.1 exampleActive "fresh" "p1" rfl rfl rfl rfl rfl,
   (submitGuess_completion_spec.2.2.2 exampleSoloActive rfl rfl).1 rfl⟩

/-! Key-press invariants. -/

theorem guessInv_nil : guessInv ([] : List Char) := by
  constructor
  · simp
  · intro c hc
    cases hc

theorem isLetterKey_eq (key : List Char) (h : isLetterKey key = true) :
    ∃ c, key = [c] ∧ inAlphabet c = true := by
  match key with
  | [] => simp [isLetterKey] at h
  | [c] => exact ⟨c, rfl, h⟩
  | c :: d :: rest => simp [isLetterKey] at h

theorem gbSubmitGuess_solo_guesses (s : GBState) (fid pid : String)
    (hpid : s.playerId = some pid) (hlen : s.currentGuess.length = 5)
    (hsub : s.isSubmitting = false) (hm : s.isMultiplayer = false) :
    (gbSubmitGuess s fid).1.guesses =
      s.guesses ++ [(⟨fid, pid, s.currentGuess⟩ : GuessRec)] := by
  rw [gbSubmitGuess_solo_eq s fid pid hpid hlen hsub hm]
  show (gbUpdateKB _).guesses = _
  rw [(gbUpdateKB_fields _).1]
  split <;> rfl

theorem gbSubmitGuess_shape (s : GBState) (fid : String) :
    ((gbSubmitGuess s fid).1.currentGuess = s.currentGuess ∨
      (gbSubmitGuess s fid).1.currentGuess = []) ∧
    (∀ r ∈ (gbSubmitGuess s fid).1.guesses, r ∈ s.guesses ∨ r.guess.length = 5) ∧
    (∀ pid gtext, GBEffect.insertGuess pid gtext ∈ (gbSubmitGuess s fid).2 →
      gtext.length = 5) := by
  by_cases hguard : s.currentGuess.length ≠ 5 ∨ s.isSubmitting = true ∨ s.playerId = none
  · have heq : gbSubmitGuess s fid = (s, []) := by
      unfold gbSubmitGuess
      rw [if_pos hguard]
    rw [heq]
    exact ⟨Or.inl rfl, fun r hr => Or.inl hr, by simp⟩
  · push_neg at hguard
    obtain ⟨hlen', hsub', hpid'⟩ := hguard
    have hlen : s.currentGuess.length = 5 := hlen'
    have hsub : s.isSubmitting = false := by
      cases hb : s.isSubmitting
      · rfl
      · exact absurd hb hsub'
    obtain ⟨pid, hpid⟩ : ∃ pid, s.playerId = some pid := by
      cases hp : s.playerId
      · exact absurd hp hpid'
      · exact ⟨_, rfl⟩
    by_cases hm : s.isMultiplayer
    · rw [gbSubmitGuess_multi_eq s fid pid hpid hlen hsub hm]
      refine ⟨Or.inr rfl, fun r hr => Or.inl hr, fun pid' g h => ?_⟩
      rcases List.mem_cons.mp h with h | h
      · simp only [GBEffect.insertGuess.injEq] at h
        rw [h.2]
        exact hlen
      · exfalso
        revert h
        split <;> simp
    · have hm' : s.isMultiplayer = false := by simpa using hm
      have hgu := gbSubmitGuess_solo_guesses s fid pid hpid hlen hsub hm'
      have hcg : (gbSubmitGuess s fid).1.currentGuess = [] := by
        rw [gbSubmitGuess_solo_eq s fid pid hpid hlen hsub hm']
      have heff : (gbSubmitGuess s fid).2 = [] := by
        rw [gbSubmitGuess_solo_eq s fid pid hpid hlen hsub hm']
      refine ⟨Or.inr hcg, fun r hr => ?_, fun pid' g h => ?_⟩
      · rw [hgu] at hr
        rcases List.mem_append.mp hr with h | h
        · exact Or.inl h
        · rw [List.mem_singleton] at h
          subst h
          exact Or.inr hlen
      · rw [heff] at h
        cases h

theorem soloSubmitGuess_shape (s : SoloState) :
    ((soloSubmitGuess s).currentGuess = s.currentGuess ∨
      (soloSubmitGuess s).currentGuess = []) ∧
    ∀ g ∈ (soloSubmitGuess s).guesses, g ∈ s.guesses ∨ g.length = 5 := by
  unfold soloSubmitGuess
  split
  · exact ⟨Or.inl rfl, fun g hg => Or.inl hg⟩
  · next hguard =>
    have hlen : s.currentGuess.length = 5 := by
      by_contra hne
      exact hguard (Or.inl hne)
    split
    · exact ⟨Or.inl rfl, fun g hg => Or.inl hg⟩
    · constructor
      · right
        dsimp only
        split
        · rfl
        · split <;> rfl
      · intro g hg
        have hg' : g ∈ s.guesses ++ [s.currentGuess] := by
          revert hg
          dsimp only
          split
          · exact fun h => h
          · split <;> exact fun h => h
        rcases List.mem_append.mp hg' with h | h
        · exact Or.inl h
        · rw [List.mem_singleton] at h
          subst h
          exact Or.inr hlen

theorem gbHandleKeyPress_step (s : GBState) (fid : String) (key : List Char)
    (hinv : guessInv s.currentGuess) :
    guessInv (gbHandleKeyPress s fid key).1.currentGuess ∧
    (∀ r ∈ (gbHandleKeyPress s fid key).1.guesses, r ∈ s.guesses ∨ r.guess.length = 5) ∧
    (∀ pid gtext, GBEffect.insertGuess pid gtext ∈ (gbHandleKeyPress s fid key).2 →
      gtext.length = 5) := by
  unfold gbHandleKeyPress
  split
  · exact ⟨hinv, fun r hr => Or.inl hr, by simp⟩
  · split
    · exact ⟨hinv, fun r hr => Or.inl hr, by simp⟩
    · split
      · split
        · obtain ⟨hcg, hgs, heff⟩ := gbSubmitGuess_shape s fid
          refine ⟨?_, hgs, heff⟩
          rcases hcg with h | h
          · rw [h]
            exact hinv
          · rw [h]
            exact guessInv_nil
        · exact ⟨hinv, fun r hr => Or.inl hr, by simp⟩
      · split
        · refine ⟨⟨?_, ?_⟩, fun r hr => Or.inl hr, by simp⟩
          · rw [List.length_dropLast]
            have := hinv.1
            omega
          · intro c hc
            exact hinv.2 c (List.dropLast_subset _ hc)
        · split
          · next hcond =>
            obtain ⟨c, hkey, hc⟩ := isLetterKey_eq key hcond.2
            refine ⟨⟨?_, ?_⟩, fun r hr => Or.inl hr, by simp⟩
            · rw [List.length_append, hkey]
              have := hcond.1
              simp
              omega
            · intro x hx
              rcases List.mem_append.mp hx with h | h
              · exact hinv.2 x h
              · rw [hkey, List.mem_singleton] at h
                subst h
                exact hc
          · exact ⟨hinv, fun r hr => Or.inl hr, by simp⟩

theorem gbHandleKeyPress_fold (s : GBState) (inputs : List (String × List Char))
    (hinv : guessInv s.currentGuess) :
    guessInv ((inputs.foldl (fun st p => (gbHandleKeyPress st p.1 p.2).1) s)).currentGuess := by
  induction inputs generalizing s with
  | nil => exact hinv
  | cons p ps ih =>
    rw [List.foldl_cons]
    exact ih _ (gbHandleKeyPress_step s p.1 p.2 hinv).1

theorem soloHandleKeyPress_step (s : SoloState) (key : List Char)
    (hinv : guessInv s.currentGuess) :
    guessInv (soloHandleKeyPress s key).currentGuess ∧
    ∀ g ∈ (soloHandleKeyPress s key).guesses, g ∈ s.guesses ∨ g.length = 5 := by
  unfold soloHandleKeyPress
  split
  · exact ⟨hinv, fun g hg => Or.inl hg⟩
  · split
    · split
      · obtain ⟨hcg, hgs⟩ := soloSubmitGuess_shape s
        refine ⟨?_, hgs⟩
        rcases hcg with h | h
        · rw [h]
          exact hinv
        · rw [h]
          exact guessInv_nil
      · exact ⟨hinv, fun g hg => Or.inl hg⟩
    · split
      · refine ⟨⟨?_, ?_⟩, fun g hg => Or.inl hg⟩
        · rw [List.length_dropLast]
          have := hinv.1
          omega
        · intro c hc
          exact hinv.2 c (List.dropLast_subset _ hc)
      · split
        · next hcond =>
          obtain ⟨c, hkey, hc⟩ := isLetterKey_eq key hcond.2
          refine ⟨⟨?_, ?_⟩, fun g hg => Or.inl hg⟩
          · rw [List.length_append, hkey]
            have := hcond.1
            simp
            omega
          · intro x hx
            rcases List.mem_append.mp hx with h | h
            · exact hinv.2 x h
            · rw [hkey, List.mem_singleton] at h
              subst h
              exact hc
        · exact ⟨hinv, fun g hg => Or.inl hg⟩

theorem soloHandleKeyPress_fold (s : SoloState) (keys : List (List Char))
    (hinv : guessInv s.currentGuess) :
    guessInv (keys.foldl soloHandleKeyPress s).currentGuess := by
  induction keys generalizing s with
  | nil => exact hinv
  | cons k ks ih =>
    rw [List.foldl_cons]
    exact ih _ (soloHandleKeyPress_step s k hinv).1

/-- C10: starting from an empty buffer, every key-press sequence keeps
the current guess at length at most 5 over the alphabet
`A`–`Z` plus `ÇĞİÖŞÜ`; and a submission fires only with a full 5-letter
buffer, so every newly recorded guess (and every emitted guess INSERT)
has length exactly 5 — in both the game-board and solo components. -/
theorem handleKeyPress_invariant_spec :
    (∀ (s : GBState) (fid : String) (key : List Char), guessInv s.currentGuess →
      guessInv (gbHandleKeyPress s fid key).1.currentGuess ∧
      (∀ r ∈ (gbHandleKeyPress s fid key).1.guesses, r ∈ s.guesses ∨ r.guess.length = 5) ∧
      (∀ pid gtext, GBEffect.insertGuess pid gtext ∈ (gbHandleKeyPress s fid key).2 →
        gtext.length = 5)) ∧
    (∀ (s : GBState) (inputs : List (String × List Char)), s.currentGuess = [] →
      guessInv ((inputs.foldl (fun st p => (gbHandleKeyPress st p.1 p.2).1) s)).currentGuess) ∧
    (∀ (s : SoloState) (key : List Char), guessInv s.currentGuess →
      guessInv (soloHandleKeyPress s key).currentGuess ∧
      ∀ g ∈ (soloHandleKeyPress s key).guesses, g ∈ s.guesses ∨ g.length = 5) ∧
    (∀ (s : SoloState) (keys : List (List Char)), s.currentGuess = [] →
      guessInv (keys.foldl soloHandleKeyPress s).currentGuess) := by
  refine ⟨gbHandleKeyPress_step, fun s inputs h0 => ?_, soloHandleKeyPress_step,
    fun s keys h0 => ?_⟩
  · exact gbHandleKeyPress_fold s inputs (by rw [h0]; exact guessInv_nil)
  · exact soloHandleKeyPress_fold s keys (by rw [h0]; exact guessInv_nil)

/-- Concrete instantiation of `handleKeyPress_invariant_spec`: a key
sequence on the completed example session (empty buffer) and a
backspace in the solo session. -/
theorem handleKeyPress_invariant_spec_witness :
    guessInv (([(("fresh" : String), ['W'])].foldl
      (fun st p => (gbHandleKeyPress st p.1 p.2).1) exampleCompleted)).currentGuess ∧
    guessInv (soloHandleKeyPress exampleSoloActive ("BACKSPACE".data)).currentGuess :=
  ⟨handleKeyPress_invariant_spec.2.1 exampleCompleted [("fresh", ['W'])] rfl,
   (handleKeyPress_invariant_spec.2.2.1 exampleSoloActive ("BACKSPACE".data)
     ⟨by decide, by decide⟩).1⟩

end MultiplayerWordle
